import Mathlib

/-!
Verification development for the job-search extraction pipeline
(src/project1/index.js).  The in-page evaluation callbacks are embedded as
pure functions over explicit views of the rendered content tree (anchors,
listing cards, query results), and the run orchestration is embedded as
explicit state passing over `Except`.  Line numbers in comments refer to
src/project1/index.js.
-/

/-! ## String primitives mirroring the JavaScript string operations used -/

/-- Whitespace as trimmed by JS `String.prototype.trim` (the ASCII cases). -/
def isJsWs (c : Char) : Bool :=
  c = ' ' || c = '\t' || c = '\n' || c = '\r' || c = '\x0b' || c = '\x0c'

/-- Drop JS whitespace from both ends of a character list. -/
def trimChars (cs : List Char) : List Char :=
  ((cs.dropWhile isJsWs).reverse.dropWhile isJsWs).reverse

/-- Embedding of `s.trim()`. -/
def jsTrim (s : String) : String := ⟨trimChars s.data⟩

/-- Embedding of `s.toLowerCase()` (ASCII range, which is all the code relies on). -/
def jsToLower (s : String) : String := ⟨s.data.map Char.toLower⟩

/-- Substring test on character lists, used to embed `s.includes(pat)`. -/
def containsAux (pat : List Char) : List Char → Bool
  | [] => pat.isEmpty
  | c :: t => pat.isPrefixOf (c :: t) || containsAux pat t

/-- Embedding of `s.includes(pat)`. -/
def jsIncludes (s pat : String) : Bool := containsAux pat.data s.data

/-- Embedding of `s.startsWith(pat)`. -/
def jsStartsWith (s pat : String) : Bool := pat.data.isPrefixOf s.data

/-- Embedding of `arr.join(' ')` on a list of strings. -/
def joinSpace : List String → String
  | [] => ""
  | [s] => s
  | s :: rest => s ++ " " ++ joinSpace rest

/-- Split a character list at a separator character (embedding of
`s.split(sep)` for a one-character separator). -/
def splitOnCharAux (sep : Char) : List Char → List Char → List (List Char)
  | [], acc => [acc.reverse]
  | c :: rest, acc =>
    if c = sep then acc.reverse :: splitOnCharAux sep rest []
    else splitOnCharAux sep rest (c :: acc)

/-- Split a character list at every occurrence of `sep`. -/
def splitOnChar (sep : Char) (cs : List Char) : List (List Char) :=
  splitOnCharAux sep cs []

/-- Rejoin chunks with a separator character (inverse of `splitOnChar`). -/
def joinWith (sep : Char) : List (List Char) → List Char
  | [] => []
  | [x] => x
  | x :: y :: rest => x ++ sep :: joinWith sep (y :: rest)

/-- Embedding of `s.split('\n')`. -/
def jsSplitLines (s : String) : List String :=
  (splitOnChar '\n' s.data).map (fun cs => ⟨cs⟩)

/-- Hex digit value, for percent-decoding. -/
def hexVal (c : Char) : Option Nat :=
  if '0' ≤ c ∧ c ≤ '9' then some (c.toNat - 48)
  else if 'a' ≤ c ∧ c ≤ 'f' then some (c.toNat - 87)
  else if 'A' ≤ c ∧ c ≤ 'F' then some (c.toNat - 55)
  else none

/-- Percent-decoding of a query-string value as performed by
`URLSearchParams` (`+` becomes a space, `%hh` becomes the byte `hh`;
single-byte scope, which covers the URLs the program handles; malformed
escapes are preserved verbatim). -/
def percentDecode : List Char → List Char
  | [] => []
  | '+' :: rest => ' ' :: percentDecode rest
  | '%' :: h1 :: h2 :: rest =>
    match hexVal h1, hexVal h2 with
    | some a, some b => Char.ofNat (16 * a + b) :: percentDecode rest
    | _, _ => '%' :: h1 :: h2 :: percentDecode rest
  | c :: rest => c :: percentDecode rest

/-- Embedding of `new URL(href).searchParams.get('q')` (lines 270-271): the
query is the part of the URL after the first `?` and before any `#`; the
first `&`-separated pair named `q` yields its percent-decoded value. -/
def getQueryParamQ (url : String) : Option String :=
  let base := (splitOnChar '#' url.data).headD []
  let chunks := splitOnChar '?' base
  if chunks.length ≤ 1 then none
  else
    let query := joinWith '?' chunks.tail
    (splitOnChar '&' query).findSome? (fun pair =>
      if pair = ['q'] then some ""
      else if ['q', '='].isPrefixOf pair then some ⟨percentDecode (pair.drop 2)⟩
      else none)

/-- Embedding of the regular-expression test `text.match(/^\d+.*ago$/)`
(lines 753, 778, 808, 824, 871): a leading digit, a middle part without a
newline (`.` does not match newlines), and the literal suffix `ago`. -/
def timeAgoRe (s : String) : Bool :=
  let cs := s.data
  (match cs with | c :: _ => c.isDigit | [] => false)
    && decide (4 ≤ cs.length)
    && cs.drop (cs.length - 3) == ['a', 'g', 'o']
    && ((cs.drop 1).take (cs.length - 4)).all (fun c => c != '\n')

/-- Uppercase ASCII letter test for the `[A-Z]` regex class. -/
def isUpperAZ (c : Char) : Bool := 'A' ≤ c && c ≤ 'Z'

/-- Lowercase ASCII letter test for the `[a-z]` regex class. -/
def isLowerAZ (c : Char) : Bool := 'a' ≤ c && c ≤ 'z'

/-- After skipping `\s*`, require an uppercase letter (tail of the
"City, Region" regex). -/
def wsThenUpper : List Char → Bool
  | [] => false
  | c :: rest => if isJsWs c then wsThenUpper rest else isUpperAZ c

/-- Continue a `[a-z]*` run up to a comma, then check `\s*[A-Z]`. -/
def lowerThenCommaTail : List Char → Bool
  | [] => false
  | c :: rest => if c = ',' then wsThenUpper rest else (isLowerAZ c && lowerThenCommaTail rest)

/-- Embedding of the test `text.match(/^[A-Z][a-z]+,\s*[A-Z]/)` (line 777). -/
def cityRegionRe (s : String) : Bool :=
  match s.data with
  | c1 :: c2 :: rest => isUpperAZ c1 && isLowerAZ c2 && lowerThenCommaTail rest
  | _ => false

/-! ## Data model -/

/-- One `<a href>` anchor as seen by the in-page callbacks.  `isSpecial`
marks anchors matched by the selector
`'.nNzjpf-cS4Vcb-PvZLI-Ueh9jd-LgbsSe-Jyewjb-tlSJBe a, a.nNzjpf-…'`
(the apply-chip class, on the anchor itself or an enclosing chip). -/
structure Anchor where
  text : String
  ariaLabel : Option String
  href : String
  isSpecial : Bool
  deriving DecidableEq

/-- One extracted job record ({title, company, location, description, link,
applyLink}, lines 650-657). -/
structure JobRecord where
  title : String
  company : String
  location : String
  description : String
  link : String
  applyLink : String
  deriving DecidableEq

/-- The identity key `title + company + location` (the dedup signature
template literal of line 647). -/
def idKeyR (r : JobRecord) : String := r.title ++ "__" ++ r.company ++ "__" ++ r.location

/-- The anchor test of `findApplyLink` (lines 615-626).  Note the
aria-label is only tested for "apply" and "view job"; "learn more" is
tested against the visible text only. -/
def prefMatch (a : Anchor) : Bool :=
  let text := jsToLower (jsTrim a.text)
  let aria := jsToLower (a.ariaLabel.getD "")
  jsIncludes text "apply" || jsIncludes text "view job" ||
    jsIncludes aria "apply" || jsIncludes aria "view job" ||
    jsIncludes text "learn more"

/-- The anchor scan of `findApplyLink` after the special-class query
failed (lines 614-628): first matching anchor, else the first anchor. -/
def applyScan (anchors : List Anchor) : String :=
  match anchors.find? prefMatch with
  | some a => a.href
  | none =>
    match anchors.head? with
    | some a => a.href
    | none => ""

/-- Embedding of `findApplyLink(root)` (lines 608-629), over the list of
`a[href]` anchors below `root` in document order.  The special-class query
runs first; if its first hit has a non-empty href it wins outright. -/
def findApplyLink (anchors : List Anchor) : String :=
  match anchors.find? (fun a => a.isSpecial) with
  | some sp => if sp.href ≠ "" then sp.href else applyScan anchors
  | none => applyScan anchors

/-- Modelled from the spec: the anchor test of the preferred-anchor
heuristic as §4.1 words it — visible text *or* accessible label contains
one of "apply", "view job", "learn more" (case-insensitive substring).
Stated only for comparison against `findApplyLink`. -/
def specMatch (a : Anchor) : Bool :=
  let text := jsToLower a.text
  let aria := jsToLower (a.ariaLabel.getD "")
  jsIncludes text "apply" || jsIncludes aria "apply" ||
    jsIncludes text "view job" || jsIncludes aria "view job" ||
    jsIncludes text "learn more" || jsIncludes aria "learn more"

/-- Modelled from the spec: link extraction per §4.1 — first anchor
matching the vocabulary, else the first anchor present.  Stated only for
comparison against `findApplyLink`. -/
def specPreferredLink (anchors : List Anchor) : String :=
  match anchors.find? specMatch with
  | some a => a.href
  | none =>
    match anchors.head? with
    | some a => a.href
    | none => ""

/-! ## Primary (class-based) listing strategy, lines 604-662 -/

/-- The resolved job card of one title marker: the query results the
callback reads from `jobCard` (lines 632-637).  Each field holds the
`innerText` of the first match of the corresponding selector, and
`anchors` lists the `a[href]` descendants in document order. -/
structure JobCard where
  locationText : Option String
  companyText : Option String
  descriptionText : Option String
  anchors : List Anchor
  deriving DecidableEq

/-- One element of `document.querySelectorAll('.tNxQIb.PUpOsf')` together
with its enclosing card (`closest(...) || parentElement`, line 632);
`card = none` when the title marker has no parent at all. -/
structure TitleCard where
  titleText : String
  card : Option JobCard
  deriving DecidableEq

/-- Accumulator of the class-based callback: the `seen` signature set and
the `jobs` array (lines 605-606). -/
structure CbState where
  seen : List String
  jobs : List JobRecord
  deriving DecidableEq

/-- `seen.add(signature); jobs.push(record)` (lines 649-657). -/
def cbPush (st : CbState) (sig : String) (r : JobRecord) : CbState :=
  { seen := sig :: st.seen, jobs := st.jobs ++ [r] }

/-- The candidate record one title marker yields (lines 639-646): field
texts trimmed and `''`-defaulted, the description suppressed when it
duplicates another field, the apply link from `findApplyLink(jobCard)`,
and `link = linkEl?.href || applyLink || ''`. -/
def cbFields (tc : TitleCard) : JobRecord :=
  let title := jsTrim tc.titleText
  let company := match tc.card.bind (fun c => c.companyText) with
    | some t => jsTrim t
    | none => ""
  let location := match tc.card.bind (fun c => c.locationText) with
    | some t => jsTrim t
    | none => ""
  let rawDescription := match tc.card.bind (fun c => c.descriptionText) with
    | some t => jsTrim t
    | none => ""
  let description :=
    if rawDescription ≠ "" ∧ rawDescription ≠ title ∧ rawDescription ≠ company ∧
        rawDescription ≠ location then rawDescription else ""
  let applyLink := match tc.card with
    | some c => findApplyLink c.anchors
    | none => ""
  let linkEl := tc.card.bind (fun c =>
    (c.anchors.find? (fun a => a.isSpecial)).orElse (fun _ => c.anchors.head?))
  let link := match linkEl with
    | some a => if a.href ≠ "" then a.href else applyLink
    | none => applyLink
  { title := title, company := company, location := location,
    description := description, link := link, applyLink := applyLink }

/-- The loop body of `titleElements.forEach` (lines 631-659): push the
candidate record unless its title is empty or its signature
(`idKeyR`, the line 647 template) was already seen. -/
def classBasedStep (st : CbState) (tc : TitleCard) : CbState :=
  if (cbFields tc).title ≠ "" ∧ idKeyR (cbFields tc) ∉ st.seen then
    cbPush st (idKeyR (cbFields tc)) (cbFields tc)
  else st

/-- Embedding of the `classBasedResults` page evaluation (lines 604-662). -/
def classBasedResults (cards : List TitleCard) : List JobRecord :=
  (cards.foldl classBasedStep ⟨[], []⟩).jobs

/-! ## Fallback listing strategy, lines 668-900 -/

/-- One element matched by a fallback `jobSelectors` entry, as the shape
scan reads it (lines 711-844).  `title` is the `innerText` of the first
heading match (line 713); `anchors` the `a[href]` descendants in document
order; `nearTitleAnchor` the href of
`jobTitle.closest('a[href]') || jobTitle.parentElement?.querySelector('a[href]')`
(line 720); `closestAnchorHref` that of `element.closest('a[href]')`
(line 724).  `companyCands` / `locationCands` / `descCands` hold the
query results of the fixed selector lists (one entry per selector, in
order), and `allText` is `element.innerText`. -/
structure FbElement where
  title : Option String
  anchors : List Anchor
  nearTitleAnchor : Option String
  closestAnchorHref : Option String
  companyCands : List (Option String)
  locationCands : List (List String)
  descCands : List (Option String)
  allText : String
  deriving DecidableEq

/-- One `h3`/`h4` heading of the secondary heading scan (lines 848-897),
with the query results it reads: the special-chip anchor near it
(line 852), `heading.closest('a[href]')` and
`heading.parentElement?.querySelector('a[href]')` (line 853), the
`innerText` of `heading.closest('[data-ved], .g, .PwjeAc')` (lines
861, 867), and the anchors of `parent || heading` for `findApplyLink`
(line 884). -/
structure HeadingItem where
  titleText : String
  specialAnchor : Option String
  closestAnchor : Option String
  parentAnchor : Option String
  parentText : Option String
  applyAnchors : List Anchor
  deriving DecidableEq

/-- Accumulator of the fallback evaluation: `seenLinks` and
`searchResults` (lines 669-670). -/
structure FbState where
  seenLinks : List String
  results : List JobRecord
  deriving DecidableEq

/-- `seenLinks.add(link); searchResults.push(record)`. -/
def fbPush (st : FbState) (link : String) (r : JobRecord) : FbState :=
  { seenLinks := link :: st.seenLinks, results := st.results ++ [r] }

/-- `seenLinks.add(link)` without a push (the heading scan adds the link
before the already-in-results check, lines 857-859). -/
def fbSeenOnly (st : FbState) (link : String) : FbState :=
  { st with seenLinks := link :: st.seenLinks }

/-- Company extraction of the shape scan (lines 736-758): first selector
hit whose trimmed text is non-empty, under 100 characters, free of the
location vocabulary and not a relative-time string. -/
def pickCompany : List (Option String) → String
  | [] => ""
  | none :: rest => pickCompany rest
  | some raw :: rest =>
    let text := jsTrim raw
    if text ≠ "" ∧ text.data.length < 100 ∧
        jsIncludes (jsToLower text) "sri lanka" = false ∧
        jsIncludes (jsToLower text) "colombo" = false ∧
        timeAgoRe text = false
    then text else pickCompany rest

/-- Inner loop of the location extraction (lines 770-784): first
candidate text passing the location test that differs from the company. -/
def pickLocationInner (companyName : String) : List String → Option String
  | [] => none
  | raw :: rest =>
    let text := jsTrim raw
    if text ≠ "" ∧ (jsIncludes (jsToLower text) "sri lanka" ∨
        jsIncludes (jsToLower text) "colombo" ∨
        jsIncludes (jsToLower text) "remote" ∨
        jsIncludes (jsToLower text) "hybrid" ∨
        cityRegionRe text ∨ timeAgoRe text = false) then
      if text ≠ companyName then some text
      else pickLocationInner companyName rest
    else pickLocationInner companyName rest

/-- Location extraction of the shape scan (lines 761-786). -/
def pickLocation (companyName : String) : List (List String) → String
  | [] => ""
  | group :: rest =>
    match pickLocationInner companyName group with
    | some t => t
    | none => pickLocation companyName rest

/-- Description extraction of the shape scan via the selector list
(lines 789-813). -/
def pickDescription (title companyName location : String) : List (Option String) → String
  | [] => ""
  | none :: rest => pickDescription title companyName location rest
  | some raw :: rest =>
    let text := jsTrim raw
    if text ≠ "" ∧ 20 < text.data.length ∧ text ≠ title ∧ text ≠ companyName ∧
        text ≠ location ∧ timeAgoRe text = false
    then text else pickDescription title companyName location rest

/-- Description fallback over the container's text lines (lines 816-831). -/
def pickDescriptionFromLines (title companyName location : String) : List String → String
  | [] => ""
  | line :: rest =>
    if line ≠ title ∧ line ≠ companyName ∧ line ≠ location ∧
        20 < line.data.length ∧ timeAgoRe line = false ∧
        jsIncludes (jsToLower line) "apply" = false ∧
        jsIncludes (jsToLower line) "view" = false
    then line else pickDescriptionFromLines title companyName location rest

/-- The trimmed non-empty lines of a text block
(`allText.split('\n').map(l => l.trim()).filter(l => l.length > 0)`). -/
def textLines (allText : String) : List String :=
  ((jsSplitLines allText).map jsTrim).filter (fun l => 0 < l.data.length)

/-- The link-element resolution chain of the shape scan (lines 715-725):
`specialLink || element.querySelector('a[href]')`, then — only when a
title was found — the anchors near the title, then
`element.closest('a[href]')`. -/
def fbShapeLink (e : FbElement) : Option String :=
  match ((e.anchors.find? (fun a => a.isSpecial)).map (fun a => a.href)).orElse
      (fun _ => (e.anchors.head?).map (fun a => a.href)) with
  | some h => some h
  | none =>
    match (if e.title.isSome then e.nearTitleAnchor else none) with
    | some h => some h
    | none => e.closestAnchorHref

/-- The record the shape scan pushes for one element (lines 734-841),
given the trimmed title and the resolved link. -/
def fbShapeRecord (e : FbElement) (title link : String) : JobRecord :=
  let companyName := pickCompany e.companyCands
  let location := pickLocation companyName e.locationCands
  let description0 := pickDescription title companyName location e.descCands
  let description :=
    if description0 ≠ "" then description0
    else pickDescriptionFromLines title companyName location (textLines e.allText)
  { title := title, company := companyName, location := location,
    description := description, link := link,
    applyLink := findApplyLink e.anchors }

/-- The loop body of the shape scan over one matched element
(lines 711-844): requires a heading and a link element, then pushes
unless the title is blank or short, the link is blank, or the link was
already seen. -/
def fbShapeStep (st : FbState) (e : FbElement) : FbState :=
  match e.title, fbShapeLink e with
  | some rawTitle, some link =>
    if jsTrim rawTitle ≠ "" ∧ link ≠ "" ∧ link ∉ st.seenLinks ∧
        3 < (jsTrim rawTitle).data.length then
      fbPush st link (fbShapeRecord e (jsTrim rawTitle) link)
    else st
  | _, _ => st

/-- The three accumulators of the heading scan's line loop
(lines 869-881): company (first short non-time line), location (first
line with place vocabulary), description (first line over 20 chars). -/
def headingFieldsAux (title : String) :
    List String → String → String → String → String × String × String
  | [], c, l, d => (c, l, d)
  | line :: rest, c, l, d =>
    if line ≠ title then
      if c = "" ∧ line.data.length < 50 ∧ timeAgoRe line = false then
        headingFieldsAux title rest line l d
      else if l = "" ∧ (jsIncludes (jsToLower line) "sri lanka" ∨
          jsIncludes (jsToLower line) "colombo" ∨
          jsIncludes (jsToLower line) "remote") then
        headingFieldsAux title rest c line d
      else if d = "" ∧ 20 < line.data.length then
        headingFieldsAux title rest c l line
      else headingFieldsAux title rest c l d
    else headingFieldsAux title rest c l d

/-- The record the heading scan pushes for one heading (lines 860-892),
given the trimmed title and the resolved link. -/
def headingRecord (h : HeadingItem) (title link : String) : JobRecord :=
  let lines := match h.parentText with
    | some t => textLines t
    | none => []
  let fields := headingFieldsAux title lines "" "" ""
  { title := title, company := fields.1, location := fields.2.1,
    description := fields.2.2, link := link,
    applyLink := findApplyLink h.applyAnchors }

/-- The loop body of the secondary heading scan (lines 849-897): the
noise filter first, then the link resolution, the global seen-link and
jobs/google-host checks (the link is registered before the
already-in-results check), and finally the push. -/
def fbHeadingStep (st : FbState) (h : HeadingItem) : FbState :=
  if jsTrim h.titleText ≠ "" ∧ 3 < (jsTrim h.titleText).data.length then
    match h.specialAnchor.orElse (fun _ =>
        h.closestAnchor.orElse (fun _ => h.parentAnchor)) with
    | none => st
    | some link =>
      if link ≠ "" ∧ link ∉ st.seenLinks ∧
          (jsIncludes link "jobs" ∨ jsIncludes link "google.com") then
        if ¬ st.results.any (fun r => r.link == link) then
          fbPush st link (headingRecord h (jsTrim h.titleText) link)
        else fbSeenOnly st link
      else st
  else st

/-- Embedding of the fallback extraction evaluation (lines 668-900):
the shape scan over all selector-matched elements (iteration order:
selector-major, document order within each selector), then the heading
scan, sharing `seenLinks` and the results array. -/
def fallbackExtract (elems : List FbElement) (heads : List HeadingItem) : List JobRecord :=
  (heads.foldl fbHeadingStep (elems.foldl fbShapeStep ⟨[], []⟩)).results

/-! ## Detail drill-down, lines 935-1107 -/

/-- One anchor captured from the detail pane or active card
(lines 1054-1062). -/
structure DetailAnchor where
  text : String
  href : String
  deriving DecidableEq

/-- The structured snapshot of one opened job (lines 1007-1046); each
field is already `''`-defaulted by `pickText`. -/
structure DetailSnapshot where
  title : String
  company : String
  location : String
  description : String
  content : String
  deriving DecidableEq

/-- The environment of one drill-down iteration: whether the activation
click succeeded (lines 945-956), the link captured from the detail pane
or active card (lines 963-999), the page URL fallback (line 1001), and
the captured snapshot and anchors. -/
structure DetailStep where
  clicked : Bool
  jobLink : String
  fallbackUrl : String
  snapshot : DetailSnapshot
  anchors : List DetailAnchor
  deriving DecidableEq

/-- One entry of `openedJobDetails` (lines 1089-1099). -/
structure JobDetail where
  index : Nat
  url : String
  applyUrl : String
  title : String
  company : String
  location : String
  description : String
  content : String
  anchors : List DetailAnchor
  deriving DecidableEq

/-- The record pushed for iteration `idx` (0-based), lines 1089-1099:
`index: idx + 1`, `url`/`applyUrl`: `jobLink || fallbackUrl`. -/
def mkJobDetail (idx : Nat) (st : DetailStep) : JobDetail :=
  { index := idx + 1
  , url := if st.jobLink ≠ "" then st.jobLink else st.fallbackUrl
  , applyUrl := if st.jobLink ≠ "" then st.jobLink else st.fallbackUrl
  , title := st.snapshot.title
  , company := st.snapshot.company
  , location := st.snapshot.location
  , description := st.snapshot.description
  , content := st.snapshot.content
  , anchors := st.anchors }

/-- The `for (let idx = 0; idx < jobCount; idx++)` loop (lines 944-1103):
an entry is appended only when the activation click succeeded; a failed
iteration is skipped but the counter still advances. -/
def drillDownFrom : Nat → List DetailStep → List JobDetail
  | _, [] => []
  | idx, st :: rest =>
    if st.clicked then mkJobDetail idx st :: drillDownFrom (idx + 1) rest
    else drillDownFrom (idx + 1) rest

/-- Embedding of the `openedJobDetails` array after the loop. -/
def openedJobDetails (steps : List DetailStep) : List JobDetail :=
  drillDownFrom 0 steps

/-! ## Result enrichment, lines 202-287 -/

/-- Environment of one enrichment lookup: whether navigation or waiting
threw inside the guarded block (lines 240-248), the per-node resolved
anchor hrefs of the preferred-selector scan in selector-major document
order (`none` when `node.closest('a')` found no anchor, lines 251-277),
and the generic `'#search a[href]'` fallback href (lines 278-279). -/
structure LookupEnv where
  navThrows : Bool
  candidates : List (Option String)
  generic : Option String

/-- The secondary search-view state: whether `searchPage` exists yet,
how many secondary pages were ever opened (`browser.newPage()` calls in
`getSearchPage`, lines 203-209), and the log of queries the search tab
navigated to (the `goto` of line 243, identified by its trimmed query). -/
structure SearchState where
  pageCreated : Bool
  pagesOpened : Nat
  navQueries : List String
  deriving DecidableEq

/-- The state before the first lookup (`let searchPage = null`, line 202). -/
def initSearchState : SearchState := ⟨false, 0, []⟩

/-- Embedding of `getSearchPage()` (lines 203-209): create the secondary
page on first use, reuse it afterwards. -/
def ensureSearchPage (st : SearchState) : SearchState :=
  if st.pageCreated then st
  else { st with pageCreated := true, pagesOpened := st.pagesOpened + 1 }

/-- The redirect-wrapper marker the scan tests with `startsWith`
(lines 264, 268). -/
def redirectWrapMark : String := "https://www.google.com/url?q="

/-- Embedding of the result-scan evaluation (lines 250-280): walk the
candidate anchors; a non-search, non-wrapper href is returned as is; a
wrapper href yields its decoded `q` parameter; otherwise continue, ending
with the generic `'#search a[href]'` fallback.  The `try`/`catch` around
`new URL` (lines 269-274) is modelled as a total parse: a wrapper href
starts with an absolute `https://` URL, so the constructor cannot throw
on the inputs this branch sees. -/
def firstResultScan : List (Option String) → Option String → String
  | [], generic => generic.getD ""
  | none :: rest, generic => firstResultScan rest generic
  | some h :: rest, generic =>
    if h ≠ "" ∧ jsIncludes h "/search?" = false ∧ jsStartsWith h redirectWrapMark = false then
      h
    else if jsStartsWith h redirectWrapMark then
      (getQueryParamQ h).getD ""
    else firstResultScan rest generic

/-- Embedding of `getFirstGoogleResultLink(query)` (lines 234-287): trim
the query and bail out on blank input before touching the secondary view;
otherwise ensure the secondary page, navigate it (recorded in
`navQueries`), and scan the results — any throw inside the guarded block
yields `''`. -/
def getFirstGoogleResultLink (st : SearchState) (env : LookupEnv) (query : String) :
    String × SearchState :=
  let trimmedQuery := jsTrim query
  if trimmedQuery = "" then ("", st)
  else
    let st1 := ensureSearchPage st
    let st2 := { st1 with navQueries := st1.navQueries ++ [trimmedQuery] }
    if env.navThrows then ("", st2)
    else (firstResultScan env.candidates env.generic, st2)

/-! ## Summary loop, lines 903-927 -/

/-- The loop over `jobsToShow` (lines 910-926), threading the secondary
search-view state; each record is paired with the search link printed for
it (`''` when no query was issued). -/
def summaryGo (envs : Nat → LookupEnv) :
    SearchState → Nat → List JobRecord → List (JobRecord × String) × SearchState
  | st, _, [] => ([], st)
  | st, i, r :: rest =>
    let parts := [r.title, r.company].filter (fun s => !(s == ""))
    if parts.isEmpty then
      let step := summaryGo envs st (i + 1) rest
      ((r, "") :: step.1, step.2)
    else
      let lookup := getFirstGoogleResultLink st (envs i) (joinSpace parts)
      let step := summaryGo envs lookup.2 (i + 1) rest
      ((r, lookup.1) :: step.1, step.2)

/-- Embedding of the summary stage: `jobsToShow = results.slice(-5)`
(line 908) enumerated in discovery order. -/
def runSummary (st0 : SearchState) (envs : Nat → LookupEnv) (results : List JobRecord) :
    List (JobRecord × String) × SearchState :=
  summaryGo envs st0 0 (results.drop (results.length - 5))

/-- The query the summary loop would submit for one record:
`[title, company].filter(Boolean).join(' ')` (line 917), then the trim
and blank-guard of `getFirstGoogleResultLink` (lines 235-238). -/
def summaryQueryOf (r : JobRecord) : Option String :=
  let parts := [r.title, r.company].filter (fun s => !(s == ""))
  if parts.isEmpty then none
  else
    let q := jsTrim (joinSpace parts)
    if q = "" then none else some q

/-- The queries the summary stage navigates the secondary view to, as a
function of the record list alone. -/
def summaryNavQueries (results : List JobRecord) : List String :=
  (results.drop (results.length - 5)).filterMap summaryQueryOf

/-! ## Run orchestration -/

/-- One discovered tab ({name, href, ariaLabel}, lines 368-372). -/
structure TabInfo where
  name : String
  href : String
  ariaLabel : String
  deriving DecidableEq

/-- Embedding of `SUMMARY_ONLY_OUTPUT = process.env.SUMMARY_ONLY_OUTPUT
!== 'false'` (line 7), read once at start. -/
def summaryOnlyOutput (envVar : Option String) : Bool := !(envVar == some "false")

/-- The environment of one run after the initial navigation to the search
view succeeded: for each content-tree evaluation, whether it throws, and
the page state it would observe.  `navThrows`, `moreJobsThrows` and
`textThrows` belong to stages whose bodies sit inside `try`/`catch`
(lines 429-477, 481-516, 525-573, 1149-1233); `tabsThrow` (line 338),
`titlesThrow` (line 579), `classThrow` (line 604) and `fbThrow`
(line 668) belong to unguarded `page.evaluate` calls.  `detailAbort`
models a throw inside the guarded drill-down loop (lines 939-1107),
which stops iteration after a prefix of the steps but is swallowed. -/
structure RunEnv where
  tabsThrow : Bool
  tabs : List TabInfo
  navThrows : Bool
  moreJobsThrows : Bool
  titlesThrow : Bool
  titleTexts : List String
  classThrow : Bool
  cards : List TitleCard
  fbThrow : Bool
  fbElems : List FbElement
  headings : List HeadingItem
  lookupEnvs : Nat → LookupEnv
  summaryEnv : Option String
  detailSteps : List DetailStep
  detailAbort : Option Nat
  textThrows : Bool

/-- Tags for the stages a run can execute, used in the report's log. -/
inductive StageTag where
  | tabsEval
  | titlesEval
  | classEval
  | fallbackEval
  | summary
  | detailLoop
  | textCollect
  deriving DecidableEq

/-- The run's observable output: the chosen record collection, the
summary pairs, the optional detail list, the log of stages that executed,
and the final secondary-view state. -/
structure Report where
  records : List JobRecord
  summary : List (JobRecord × String)
  details : Option (List JobDetail)
  evalLog : List StageTag
  searchState : SearchState

/-- One unguarded `page.evaluate`: a throw propagates as an error. -/
def evalStep (throws : Bool) (v : α) : Except String α :=
  if throws then Except.error "page.evaluate failed" else Except.ok v

/-- The tail of the run after the record collection is fixed
(lines 903-1233): summary stage, then either the early return of
lines 929-933 or the guarded detail drill-down and text collection. -/
def finishRun (env : RunEnv) (results : List JobRecord) (fbLog : List StageTag) : Report :=
  let summaryPair := runSummary initSearchState env.lookupEnvs results
  let baseLog := [StageTag.tabsEval, StageTag.titlesEval, StageTag.classEval] ++
    fbLog ++ [StageTag.summary]
  if summaryOnlyOutput env.summaryEnv then
    { records := results, summary := summaryPair.1, details := none,
      evalLog := baseLog, searchState := summaryPair.2 }
  else
    let steps := match env.detailAbort with
      | none => env.detailSteps
      | some k => env.detailSteps.take k
    { records := results, summary := summaryPair.1,
      details := some (openedJobDetails steps),
      evalLog := baseLog ++ [StageTag.detailLoop, StageTag.textCollect],
      searchState := summaryPair.2 }

/-- Embedding of the run from the point where the initial navigation to
the search view has succeeded (line 331 onwards).  Guarded stages
swallow their throws; the four unguarded evaluations propagate theirs to
the top-level `.catch(console.error)` (line 1245), in which case no
report is produced.  The strategy choice mirrors lines 664-668: the
fallback evaluation runs only when the class-based results are empty. -/
def runPipeline (env : RunEnv) : Except String Report :=
  match evalStep env.tabsThrow env.tabs with
  | Except.error e => Except.error e
  | Except.ok _ =>
  match evalStep env.titlesThrow env.titleTexts with
  | Except.error e => Except.error e
  | Except.ok _ =>
  match evalStep env.classThrow (classBasedResults env.cards) with
  | Except.error e => Except.error e
  | Except.ok classResults =>
  if classResults.isEmpty then
    match evalStep env.fbThrow (fallbackExtract env.fbElems env.headings) with
    | Except.error e => Except.error e
    | Except.ok fb => Except.ok (finishRun env fb [StageTag.fallbackEval])
  else Except.ok (finishRun env classResults [])

/-- Whether the run produced a report at all. -/
def isOkE (e : Except String Report) : Bool :=
  match e with
  | Except.ok _ => true
  | Except.error _ => false

/-- Projection of an `Except` result onto its report, with a default for
the error case (used only to state closed witnesses). -/
def reportOf (e : Except String Report) (d : Report) : Report :=
  match e with
  | Except.ok r => r
  | Except.error _ => d

/-- An inert default report. -/
def emptyReport : Report :=
  { records := [], summary := [], details := none, evalLog := [],
    searchState := initSearchState }

/-! ## Invariants used by the dedup and noise-filter proofs -/

/-- Every emitted fallback record's link is registered in `seenLinks`,
and the emitted links are pairwise distinct. -/
def LinkInv (st : FbState) : Prop :=
  (∀ r ∈ st.results, r.link ∈ st.seenLinks) ∧
    st.results.Pairwise (fun a b => a.link ≠ b.link)

/-- Every fallback record's title is longer than 3 characters. -/
def TitleLenInv (st : FbState) : Prop :=
  ∀ r ∈ st.results, 3 < r.title.data.length

/-- Every emitted class-based record's identity key is registered in
`seen`, and the emitted identity keys are pairwise distinct. -/
def SigInv (st : CbState) : Prop :=
  (∀ r ∈ st.jobs, idKeyR r ∈ st.seen) ∧
    st.jobs.Pairwise (fun a b => idKeyR a ≠ idKeyR b)

/-- Every class-based record's title is non-empty. -/
def TitleNeInv (st : CbState) : Prop :=
  ∀ r ∈ st.jobs, r.title ≠ ""

/-- At most one secondary page is ever opened, and none before the first
lookup creates it. -/
def PagesInv (st : SearchState) : Prop :=
  st.pagesOpened ≤ 1 ∧ (st.pageCreated = false → st.pagesOpened = 0)

/-! ## Concrete inputs for witnesses and counterexamples -/

/-- A lookup environment with no results and no failures. -/
def noLookup : Nat → LookupEnv := fun _ => ⟨false, [], none⟩

/-- A run environment with no failures and an empty page. -/
def cleanRunEnv : RunEnv :=
  { tabsThrow := false, tabs := [], navThrows := false, moreJobsThrows := false,
    titlesThrow := false, titleTexts := [], classThrow := false, cards := [],
    fbThrow := false, fbElems := [], headings := [], lookupEnvs := noLookup,
    summaryEnv := none, detailSteps := [], detailAbort := none, textThrows := false }

/-- A fallback element with the given title and link and nothing else. -/
def bareFbElem (t link : String) : FbElement :=
  ⟨some t, [⟨"", none, link, false⟩], none, none, [], [], [], ""⟩

/-- Two fallback listings with the same title (hence the same identity
key once company and location are empty) but distinct links. -/
def c1Elems : List FbElement :=
  [bareFbElem "Software Engineer" "https://a.example/1",
   bareFbElem "Software Engineer" "https://b.example/2"]

/-- A title marker whose trimmed text has only 2 characters. -/
def c2Cards : List TitleCard := [⟨"ab", none⟩]

/-- A fallback element whose record survives the noise filter. -/
def c2wElem : FbElement := bareFbElem "Engineer" "https://jobs.example/1"

/-- The record `fallbackExtract [c2wElem] []` produces. -/
def c2wRec : JobRecord :=
  ⟨"Engineer", "", "", "", "https://jobs.example/1", "https://jobs.example/1"⟩

/-- A drill-down step with the given click outcome and no captured data. -/
def detailStepOf (b : Bool) : DetailStep := ⟨b, "", "", ⟨"", "", "", "", ""⟩, []⟩

/-- Default drill-down step, used for positional lookups. -/
def dummyDetailStep : DetailStep := detailStepOf false

/-- Five drill-down iterations of which the third fails to activate. -/
def c3Steps : List DetailStep :=
  [detailStepOf true, detailStepOf true, detailStepOf false,
   detailStepOf true, detailStepOf true]

/-- Three drill-down iterations that all activate. -/
def c3wSteps : List DetailStep :=
  [detailStepOf true, detailStepOf true, detailStepOf true]

/-- A navigation anchor matching nothing in the preferred vocabulary. -/
def c4Home : Anchor := ⟨"Home", none, "https://site.example/home", false⟩

/-- An anchor whose visible text contains "apply". -/
def c4Apply : Anchor := ⟨"Apply Now", none, "https://site.example/apply", false⟩

/-- An anchor matching nothing, preceding `c4xB`. -/
def c4xA : Anchor := ⟨"Home", none, "https://site.example/a", false⟩

/-- An anchor whose accessible label (but not its text) contains
"learn more". -/
def c4xB : Anchor := ⟨"More info", some "Learn more about the role", "https://site.example/b", false⟩

/-- A run in which only the class-based listing evaluation throws. -/
def c5Env : RunEnv := { cleanRunEnv with classThrow := true }

/-- A redirect-wrapper URL on a host other than the search engine's. -/
def c6xUrl : String := "https://example.com/url?q=https://target.example/job/1"

/-- A record list with six distinct, non-empty titles. -/
def c7xRecords : List JobRecord :=
  [⟨"T0", "", "", "", "", ""⟩, ⟨"T1", "", "", "", "", ""⟩, ⟨"T2", "", "", "", "", ""⟩,
   ⟨"T3", "", "", "", "", ""⟩, ⟨"T4", "", "", "", "", ""⟩, ⟨"T5", "", "", "", "", ""⟩]

/-- A single record with non-empty trimmed title and company. -/
def c7wRec : JobRecord := ⟨"Engineer", "Acme", "", "", "", ""⟩

/-- A run whose class-based strategy yields one record. -/
def c9wEnv : RunEnv := { cleanRunEnv with cards := [⟨"Engineer", none⟩] }

/-! ## Shared helper lemmas -/

/-- A property preserved by every step of a fold holds of the fold. -/
theorem foldl_preserves {α β : Type} (f : α → β → α) (P : α → Prop)
    (h : ∀ a b, P a → P (f a b)) : ∀ (l : List β) (a : α), P a → P (l.foldl f a) := by
  intro l
  induction l with
  | nil => intro a ha; exact ha
  | cons b t ih => intro a ha; exact ih (f a b) (h a b ha)

/-- `find?` returns the first element satisfying the predicate. -/
theorem find_eq_first {α : Type} (p : α → Bool) (a : α) :
    ∀ (pre post : List α), (∀ b ∈ pre, p b = false) → p a = true →
      (pre ++ a :: post).find? p = some a := by
  intro pre
  induction pre with
  | nil => intro post _ ha; simpa using List.find?_cons_of_pos _ ha
  | cons b t ih =>
    intro post hpre ha
    have hb : p b = false := hpre b (List.mem_cons_self b t)
    rw [List.cons_append, List.find?_cons_of_neg _ (by simp [hb])]
    exact ih post (fun x hx => hpre x (List.mem_cons_of_mem b hx)) ha

/-! ## C10: blank-query guard of the enrichment lookup -/

/-- C10: for every query that trims to the empty string, the enrichment
lookup returns the empty string immediately and leaves the secondary
view untouched (no page creation, no navigation). -/
theorem c10_empty_query_guard (st : SearchState) (env : LookupEnv) (q : String)
    (h : jsTrim q = "") : getFirstGoogleResultLink st env q = ("", st) := by
  unfold getFirstGoogleResultLink
  rw [if_pos h]

/-- Witness for C10 at a whitespace-only query. -/
theorem c10_empty_query_guard_witness :
    getFirstGoogleResultLink initSearchState (noLookup 0) "   " = ("", initSearchState) :=
  c10_empty_query_guard initSearchState (noLookup 0) "   " (by decide)

/-! ## C3: detail drill-down index assignment -/

/-- Each appended detail entry corresponds to an iteration that clicked,
and carries that iteration's 1-based position as its index. -/
theorem drillDownFrom_mem_index :
    ∀ (steps : List DetailStep) (n : Nat) (d : JobDetail),
      d ∈ drillDownFrom n steps →
      ∃ i, i < steps.length ∧ d.index = n + i + 1 ∧
        (steps.getD i dummyDetailStep).clicked = true := by
  intro steps
  induction steps with
  | nil => intro n d hd; simp [drillDownFrom] at hd
  | cons s rest ih =>
    intro n d hd
    by_cases hc : s.clicked
    · rw [drillDownFrom, if_pos hc] at hd
      rcases List.mem_cons.mp hd with hd | hd
      · refine ⟨0, by simp, ?_, ?_⟩
        · rw [hd]; rfl
        · simpa using hc
      · obtain ⟨i, hi, hidx, hcl⟩ := ih (n + 1) d hd
        refine ⟨i + 1, by simpa using hi, by omega, by simpa using hcl⟩
    · rw [drillDownFrom, if_neg hc] at hd
      obtain ⟨i, hi, hidx, hcl⟩ := ih (n + 1) d hd
      refine ⟨i + 1, by simpa using hi, by omega, by simpa using hcl⟩

/-- Every appended index is at least `n + 1`. -/
theorem drillDownFrom_lb (steps : List DetailStep) (n : Nat) (d : JobDetail)
    (hd : d ∈ drillDownFrom n steps) : n + 1 ≤ d.index := by
  obtain ⟨i, -, hidx, -⟩ := drillDownFrom_mem_index steps n d hd
  omega

/-- The appended indices are strictly increasing. -/
theorem drillDownFrom_sorted :
    ∀ (steps : List DetailStep) (n : Nat),
      ((drillDownFrom n steps).map (fun d => d.index)).Pairwise (fun a b => a < b) := by
  intro steps
  induction steps with
  | nil => intro n; simp [drillDownFrom]
  | cons s rest ih =>
    intro n
    by_cases hc : s.clicked
    · rw [drillDownFrom, if_pos hc]
      rw [List.map_cons, List.pairwise_cons]
      constructor
      · intro x hx
        obtain ⟨d, hd, hdx⟩ := List.mem_map.mp hx
        have := drillDownFrom_lb rest (n + 1) d hd
        have hidx : (mkJobDetail n s).index = n + 1 := rfl
        omega
      · exact ih (n + 1)
    · rw [drillDownFrom, if_neg hc]
      exact ih (n + 1)

/-- When every iteration activates, the indices are exactly the
contiguous range starting at `n + 1`. -/
theorem drillDownFrom_all_clicked :
    ∀ (steps : List DetailStep) (n : Nat), (∀ s ∈ steps, s.clicked = true) →
      (drillDownFrom n steps).map (fun d => d.index) = List.range' (n + 1) steps.length := by
  intro steps
  induction steps with
  | nil => intro n _; simp [drillDownFrom]
  | cons s rest ih =>
    intro n hall
    have hc : s.clicked = true := hall s (List.mem_cons_self s rest)
    rw [drillDownFrom, if_pos hc, List.map_cons,
      ih (n + 1) (fun x hx => hall x (List.mem_cons_of_mem s hx))]
    rfl

/-- C3 (amended): the index of each appended `JobDetail` equals the
1-based position of its drill-down iteration; indices are strictly
increasing, an iteration that fails to activate is skipped without
shifting later indices, and the indices form the contiguous sequence
`1..n` exactly when every iteration activates — but not when one fails. -/
theorem c3_detail_index_amended (steps : List DetailStep) :
    ((openedJobDetails steps).map (fun d => d.index)).Pairwise (fun a b => a < b) ∧
    (∀ d ∈ openedJobDetails steps,
      ∃ i, i < steps.length ∧ d.index = i + 1 ∧
        (steps.getD i dummyDetailStep).clicked = true) ∧
    ((∀ s ∈ steps, s.clicked = true) →
      (openedJobDetails steps).map (fun d => d.index) = List.range' 1 steps.length) := by
  refine ⟨drillDownFrom_sorted steps 0, ?_, ?_⟩
  · intro d hd
    obtain ⟨i, hi, hidx, hcl⟩ := drillDownFrom_mem_index steps 0 d hd
    exact ⟨i, hi, by omega, hcl⟩
  · intro hall
    exact drillDownFrom_all_clicked steps 0 hall

/-- Witness for C3 at three successful iterations. -/
theorem c3_detail_index_amended_witness :
    (openedJobDetails c3wSteps).map (fun d => d.index) = List.range' 1 c3wSteps.length :=
  (c3_detail_index_amended c3wSteps).2.2 (by decide)

/-- C3 counterexample: five iterations with the third failing to
activate yield indices 1,2,4,5 — iteration positions are preserved, so
the sequence is *not* contiguous, refuting the claim's "contiguous
1-based sequence ... independent of whether any individual iteration
succeeded". -/
theorem c3_counterexample :
    (openedJobDetails c3Steps).map (fun d => d.index) = [1, 2, 4, 5] ∧
    (openedJobDetails c3Steps).map (fun d => d.index) ≠
      List.range' 1 ((openedJobDetails c3Steps).length) := by
  decide

/-! ## C4: preferred-anchor heuristic -/

/-- C4 (amended): in a container without special-class apply-chip
anchors, link extraction returns the href of the first anchor matching
the code's vocabulary test — visible text containing "apply", "view job"
or "learn more", or accessible label containing "apply" or "view job"
(the label is *not* tested for "learn more") — and in particular returns
B for the anchors Home → A, Apply Now → B. -/
theorem c4_preferred_anchor_amended (pre post : List Anchor) (a : Anchor)
    (hns : ∀ b ∈ pre ++ a :: post, b.isSpecial = false)
    (hpre : ∀ b ∈ pre, prefMatch b = false)
    (ha : prefMatch a = true) :
    findApplyLink (pre ++ a :: post) = a.href := by
  have hnone : (pre ++ a :: post).find? (fun x => x.isSpecial) = none :=
    List.find?_eq_none.mpr (fun x hx => by simp [hns x hx])
  unfold findApplyLink
  rw [hnone]
  unfold applyScan
  rw [find_eq_first prefMatch a pre post hpre ha]

/-- Witness for C4 at the spec's own example pair Home → A,
Apply Now → B: extraction returns B. -/
theorem c4_preferred_anchor_amended_witness :
    findApplyLink [c4Home, c4Apply] = "https://site.example/apply" := by
  have h := c4_preferred_anchor_amended [c4Home] [] c4Apply (by decide) (by decide) (by decide)
  simpa using h

/-- C4 counterexample: an anchor whose accessible label (but not text)
contains "learn more" matches the spec's vocabulary test but not the
code's, so the code falls back to the first anchor instead of returning
the labelled one. -/
theorem c4_counterexample :
    specPreferredLink [c4xA, c4xB] = "https://site.example/b" ∧
    findApplyLink [c4xA, c4xB] = "https://site.example/a" ∧
    ("https://site.example/a" : String) ≠ "https://site.example/b" := by
  decide

/-! ## C5: error propagation across stage boundaries -/

/-- C5 (amended): the run produces a report exactly when none of the four
unguarded content-tree evaluations throws (the fallback one counting
only when it runs, i.e. when the class-based results are empty); the
guarded stages never affect this.  In particular an exception in the
class-based listing evaluation escapes its stage and aborts the run. -/
theorem c5_error_boundaries_amended (env : RunEnv) :
    isOkE (runPipeline env) =
      (!env.tabsThrow && !env.titlesThrow && !env.classThrow &&
        (!(classBasedResults env.cards).isEmpty || !env.fbThrow)) := by
  cases htab : env.tabsThrow <;> cases htit : env.titlesThrow <;>
    cases hcl : env.classThrow <;> cases hfb : env.fbThrow <;>
    cases hemp : (classBasedResults env.cards).isEmpty <;>
    simp [runPipeline, evalStep, isOkE, htab, htit, hcl, hfb, hemp]

/-- C5 counterexample: a run in which only the class-based listing
evaluation throws produces no report at all, refuting "no exception
propagates past its stage boundary / the run always produces its
report". -/
theorem c5_counterexample :
    isOkE (runPipeline c5Env) = false ∧ c5Env.classThrow = true ∧
    c5Env.tabsThrow = false ∧ c5Env.titlesThrow = false ∧ c5Env.fbThrow = false := by
  decide

/-! ## C1 and C2: dedup and noise-filter invariants -/

/-- Pushing a record whose link is fresh preserves the link invariant. -/
theorem fbPush_linkInv (st : FbState) (link : String) (r : JobRecord)
    (h : LinkInv st) (hnew : link ∉ st.seenLinks) (hr : r.link = link) :
    LinkInv (fbPush st link r) := by
  obtain ⟨hmem, hpw⟩ := h
  unfold LinkInv fbPush
  constructor
  · intro x hx
    rcases List.mem_append.mp hx with hx | hx
    · exact List.mem_cons_of_mem _ (hmem x hx)
    · have hxr : x = r := by simpa using hx
      subst hxr
      rw [hr]
      exact List.mem_cons_self _ _
  · rw [List.pairwise_append]
    refine ⟨hpw, by simp, ?_⟩
    intro a ha b hb
    have hbr : b = r := by simpa using hb
    subst hbr
    rw [hr]
    intro heq
    exact hnew (heq ▸ hmem a ha)

/-- Registering a link without pushing preserves the link invariant. -/
theorem fbSeenOnly_linkInv (st : FbState) (link : String) (h : LinkInv st) :
    LinkInv (fbSeenOnly st link) := by
  obtain ⟨hmem, hpw⟩ := h
  exact ⟨fun r hr => List.mem_cons_of_mem _ (hmem r hr), hpw⟩

/-- The shape scan preserves the link invariant. -/
theorem fbShapeStep_linkInv (st : FbState) (e : FbElement) (h : LinkInv st) :
    LinkInv (fbShapeStep st e) := by
  unfold fbShapeStep
  split
  · split
    · next hguard => exact fbPush_linkInv st _ _ h hguard.2.2.1 rfl
    · exact h
  all_goals exact h

/-- The heading scan preserves the link invariant. -/
theorem fbHeadingStep_linkInv (st : FbState) (h : HeadingItem) (hinv : LinkInv st) :
    LinkInv (fbHeadingStep st h) := by
  unfold fbHeadingStep
  split
  · split
    · exact hinv
    · split
      · next hg =>
        split
        · exact fbPush_linkInv st _ _ hinv hg.2.1 rfl
        · exact fbSeenOnly_linkInv st _ hinv
      · exact hinv
  · exact hinv

/-- The full fallback extraction satisfies the link invariant. -/
theorem fallback_linkInv (elems : List FbElement) (heads : List HeadingItem) :
    LinkInv (heads.foldl fbHeadingStep (elems.foldl fbShapeStep ⟨[], []⟩)) :=
  foldl_preserves _ LinkInv (fun a b ha => fbHeadingStep_linkInv a b ha) heads _
    (foldl_preserves _ LinkInv (fun a b ha => fbShapeStep_linkInv a b ha) elems _
      ⟨by simp, List.Pairwise.nil⟩)

/-- Pushing a record with a fresh identity key preserves the signature
invariant. -/
theorem cbPush_sigInv (st : CbState) (sig : String) (r : JobRecord)
    (h : SigInv st) (hnew : sig ∉ st.seen) (hr : idKeyR r = sig) :
    SigInv (cbPush st sig r) := by
  obtain ⟨hmem, hpw⟩ := h
  unfold SigInv cbPush
  constructor
  · intro x hx
    rcases List.mem_append.mp hx with hx | hx
    · exact List.mem_cons_of_mem _ (hmem x hx)
    · have hxr : x = r := by simpa using hx
      subst hxr
      rw [hr]
      exact List.mem_cons_self _ _
  · rw [List.pairwise_append]
    refine ⟨hpw, by simp, ?_⟩
    intro a ha b hb
    have hbr : b = r := by simpa using hb
    subst hbr
    rw [hr]
    intro heq
    exact hnew (heq ▸ hmem a ha)

/-- The class-based loop body preserves the signature invariant. -/
theorem classBasedStep_sigInv (st : CbState) (tc : TitleCard) (h : SigInv st) :
    SigInv (classBasedStep st tc) := by
  unfold classBasedStep
  split
  · next hguard => exact cbPush_sigInv st _ _ h hguard.2 rfl
  · exact h

/-- The class-based extraction satisfies the signature invariant. -/
theorem classBased_sigInv (cards : List TitleCard) :
    SigInv (cards.foldl classBasedStep ⟨[], []⟩) :=
  foldl_preserves _ SigInv (fun a b ha => classBasedStep_sigInv a b ha) cards _
    ⟨by simp, List.Pairwise.nil⟩

/-- C1 (amended): within the class-based strategy's output no two records
share an identity key (title+company+location); the fallback strategy
deduplicates by link instead, so no two of its records share a link —
but fallback records *can* share an identity key. -/
theorem c1_identity_key_dedup_amended :
    (∀ cards : List TitleCard,
      ((classBasedResults cards).map idKeyR).Pairwise (fun a b => a ≠ b)) ∧
    (∀ (elems : List FbElement) (heads : List HeadingItem),
      ((fallbackExtract elems heads).map (fun r => r.link)).Pairwise (fun a b => a ≠ b)) := by
  constructor
  · intro cards
    rw [List.pairwise_map]
    exact (classBased_sigInv cards).2
  · intro elems heads
    rw [List.pairwise_map]
    exact (fallback_linkInv elems heads).2

/-- C1 counterexample: two fallback listings with the same title and
empty company/location but distinct links are both emitted — their
identity keys coincide, refuting identity-key dedup for the fallback
strategy. -/
theorem c1_counterexample :
    (fallbackExtract c1Elems []).map idKeyR =
      ["Software Engineer____", "Software Engineer____"] ∧
    ¬ ((fallbackExtract c1Elems []).map idKeyR).Pairwise (fun a b => a ≠ b) := by
  refine ⟨by decide, ?_⟩
  intro hpw
  rw [show (fallbackExtract c1Elems []).map idKeyR =
      ["Software Engineer____", "Software Engineer____"] from by decide] at hpw
  have := (List.pairwise_cons.mp hpw).1 _ (List.mem_cons_self _ _)
  exact this rfl

/-- Pushing a record with a long title preserves the length invariant. -/
theorem fbPush_titleLen (st : FbState) (link : String) (r : JobRecord)
    (h : TitleLenInv st) (hr : 3 < r.title.data.length) :
    TitleLenInv (fbPush st link r) := by
  intro x hx
  rcases List.mem_append.mp hx with hx | hx
  · exact h x hx
  · have hxr : x = r := by simpa using hx
    subst hxr
    exact hr

/-- The shape scan only emits titles longer than 3 characters. -/
theorem fbShapeStep_titleLen (st : FbState) (e : FbElement) (h : TitleLenInv st) :
    TitleLenInv (fbShapeStep st e) := by
  unfold fbShapeStep
  split
  · split
    · next hguard => exact fbPush_titleLen st _ _ h hguard.2.2.2
    · exact h
  all_goals exact h

/-- The heading scan only emits titles longer than 3 characters. -/
theorem fbHeadingStep_titleLen (st : FbState) (h : HeadingItem) (hinv : TitleLenInv st) :
    TitleLenInv (fbHeadingStep st h) := by
  unfold fbHeadingStep
  split
  · next houter =>
    split
    · exact hinv
    · split
      · split
        · exact fbPush_titleLen st _ _ hinv houter.2
        · exact hinv
      · exact hinv
  · exact hinv

/-- Pushing a record with a non-empty title preserves that invariant. -/
theorem cbPush_titleNe (st : CbState) (sig : String) (r : JobRecord)
    (h : TitleNeInv st) (hr : r.title ≠ "") : TitleNeInv (cbPush st sig r) := by
  intro x hx
  rcases List.mem_append.mp hx with hx | hx
  · exact h x hx
  · have hxr : x = r := by simpa using hx
    subst hxr
    exact hr

/-- The class-based loop only emits non-empty titles. -/
theorem classBasedStep_titleNe (st : CbState) (tc : TitleCard) (h : TitleNeInv st) :
    TitleNeInv (classBasedStep st tc) := by
  unfold classBasedStep
  split
  · next hguard => exact cbPush_titleNe st _ _ h hguard.1
  · exact h

/-- C2 (amended): the ≤ 3-character noise filter holds for the fallback
strategy (both the shape scan and the secondary heading scan); the
class-based primary strategy filters only *empty* titles, so titles of
length 1–3 can be emitted by it. -/
theorem c2_noise_filter_amended :
    (∀ (elems : List FbElement) (heads : List HeadingItem),
      ∀ r ∈ fallbackExtract elems heads, 3 < r.title.data.length) ∧
    (∀ cards : List TitleCard, ∀ r ∈ classBasedResults cards, r.title ≠ "") := by
  constructor
  · intro elems heads
    exact foldl_preserves _ TitleLenInv (fun a b ha => fbHeadingStep_titleLen a b ha) heads _
      (foldl_preserves _ TitleLenInv (fun a b ha => fbShapeStep_titleLen a b ha) elems _
        (by intro r hr; simp at hr))
  · intro cards
    exact foldl_preserves _ TitleNeInv (fun a b ha => classBasedStep_titleNe a b ha) cards _
      (by intro r hr; simp at hr)

/-- Witness for C2 (amended) at a single fallback listing. -/
theorem c2_noise_filter_amended_witness : 3 < c2wRec.title.data.length :=
  c2_noise_filter_amended.1 [c2wElem] [] c2wRec (by decide)

/-- C2 counterexample: the class-based strategy emits a record whose
title "ab" has length 2 ≤ 3, refuting the claim that no strategy ever
emits a title of length ≤ 3. -/
theorem c2_counterexample :
    (classBasedResults c2Cards).map (fun r => r.title) = ["ab"] ∧
    ("ab" : String).data.length ≤ 3 := by
  decide

/-! ## C6: redirect unwrapping in the enrichment lookup -/

/-- Appending preserves the character data of strings. -/
theorem strDataAppend (a b : String) : (a ++ b).data = a.data ++ b.data := rfl

/-- A list is a prefix of itself extended by anything. -/
theorem isPrefixOfAppendSelf : ∀ (l m : List Char), l.isPrefixOf (l ++ m) = true := by
  intro l m
  induction l with
  | nil => simp [List.isPrefixOf]
  | cons c t ih => simp [List.isPrefixOf, ih]

/-- Splitting at a character that does not occur yields one chunk. -/
theorem splitOnCharAux_not_mem (sep : Char) :
    ∀ (l acc : List Char), sep ∉ l → splitOnCharAux sep l acc = [acc.reverse ++ l] := by
  intro l
  induction l with
  | nil => intro acc _; simp [splitOnCharAux]
  | cons c rest ih =>
    intro acc hmem
    have hc : ¬ c = sep := by intro e; exact hmem (by simp [e])
    rw [splitOnCharAux, if_neg hc,
      ih (c :: acc) (fun hm => hmem (List.mem_cons_of_mem c hm))]
    simp

/-- Splitting through the first occurrence of the separator. -/
theorem splitOnCharAux_through (sep : Char) :
    ∀ (xs : List Char), sep ∉ xs → ∀ (ys acc : List Char),
      splitOnCharAux sep (xs ++ sep :: ys) acc =
        (acc.reverse ++ xs) :: splitOnCharAux sep ys [] := by
  intro xs
  induction xs with
  | nil =>
    intro _ ys acc
    rw [List.nil_append, splitOnCharAux, if_pos rfl]
    simp
  | cons x xs ih =>
    intro hmem ys acc
    have hx : ¬ x = sep := by intro e; exact hmem (by simp [e])
    rw [List.cons_append, splitOnCharAux, if_neg hx,
      ih (fun hm => hmem (List.mem_cons_of_mem x hm)) ys (x :: acc)]
    simp

/-- Percent-decoding is the identity on values without `%` or `+`. -/
theorem percentDecode_clean : ∀ (cs : List Char), '%' ∉ cs → '+' ∉ cs →
    percentDecode cs = cs := by
  intro cs
  induction cs with
  | nil => intro _ _; rfl
  | cons c rest ih =>
    intro h1 h2
    have hc1 : c ≠ '%' := by intro e; exact h1 (by simp [e])
    have hc2 : c ≠ '+' := by intro e; exact h2 (by simp [e])
    have h1' : '%' ∉ rest := fun hm => h1 (List.mem_cons_of_mem c hm)
    have h2' : '+' ∉ rest := fun hm => h2 (List.mem_cons_of_mem c hm)
    rw [percentDecode.eq_def]
    split
    · next heq => exact absurd heq (by simp)
    · next heq => exact absurd (List.head_eq_of_cons_eq heq) hc2
    · next heq => exact absurd (List.head_eq_of_cons_eq heq) hc1
    · next c' rest' heq =>
      obtain ⟨hc, hrest⟩ := List.cons.inj heq
      subst hc
      subst hrest
      rw [ih h1' h2']

/-- The `q` parameter of a wrapper URL built from the marker and a clean
target decodes to the target itself. -/
theorem getQueryParamQ_wrap (t : String) (h1 : '&' ∉ t.data) (h2 : '%' ∉ t.data)
    (h3 : '+' ∉ t.data) (h4 : '#' ∉ t.data) (h5 : '?' ∉ t.data) :
    getQueryParamQ (redirectWrapMark ++ t) = some t := by
  have hhash : '#' ∉ (redirectWrapMark.data ++ t.data) := by
    intro hm
    rcases List.mem_append.mp hm with hm | hm
    · exact absurd hm (by decide)
    · exact h4 hm
  have hqm : '?' ∉ ('q' :: '=' :: t.data) := by
    intro hm
    rcases List.mem_cons.mp hm with h | hm
    · exact absurd h (by decide)
    rcases List.mem_cons.mp hm with h | hm
    · exact absurd h (by decide)
    · exact h5 hm
  have hamp : '&' ∉ ('q' :: '=' :: t.data) := by
    intro hm
    rcases List.mem_cons.mp hm with h | hm
    · exact absurd h (by decide)
    rcases List.mem_cons.mp hm with h | hm
    · exact absurd h (by decide)
    · exact h1 hm
  have hmark : redirectWrapMark.data = "https://www.google.com/url".data ++ '?' :: ['q', '='] := by
    decide
  have hbase : splitOnChar '#' ((redirectWrapMark ++ t).data) =
      [redirectWrapMark.data ++ t.data] := by
    rw [strDataAppend]
    unfold splitOnChar
    rw [splitOnCharAux_not_mem '#' _ [] hhash]
    simp
  have hsplit : splitOnChar '?' (redirectWrapMark.data ++ t.data) =
      ["https://www.google.com/url".data, 'q' :: '=' :: t.data] := by
    unfold splitOnChar
    rw [hmark, List.append_assoc]
    show splitOnCharAux '?'
      ("https://www.google.com/url".data ++ '?' :: ('q' :: '=' :: t.data)) [] = _
    rw [splitOnCharAux_through '?' _ (by decide) _ [],
      splitOnCharAux_not_mem '?' _ [] hqm]
    simp
  have hamp2 : splitOnChar '&' ('q' :: '=' :: t.data) = ['q' :: '=' :: t.data] := by
    unfold splitOnChar
    rw [splitOnCharAux_not_mem '&' _ [] hamp]
    simp
  unfold getQueryParamQ
  rw [hbase, List.headD_cons]
  dsimp only
  rw [hsplit]
  rw [if_neg (by simp)]
  show (splitOnChar '&' (joinWith '?' ['q' :: '=' :: t.data])).findSome? _ = some t
  rw [show joinWith '?' ['q' :: '=' :: t.data] = 'q' :: '=' :: t.data from rfl, hamp2]
  rw [List.findSome?_cons]
  rw [if_neg (by simp)]
  rw [if_pos (by simp [List.isPrefixOf])]
  show some (⟨percentDecode t.data⟩ : String) = some t
  rw [percentDecode_clean t.data h2 h3]

/-- C6 (amended): the redirect-unwrapping rule applies exactly to links
starting with the search engine's own wrapper prefix
`https://www.google.com/url?q=`; for a first candidate of that shape the
enrichment lookup returns the decoded `q` parameter (here a target
without reserved characters) instead of the wrapper URL.  Wrapper-shaped
URLs on other hosts are not unwrapped. -/
theorem c6_redirect_unwrap_amended (st : SearchState) (q t : String)
    (rest : List (Option String)) (g : Option String)
    (hq : jsTrim q ≠ "")
    (h1 : '&' ∉ t.data) (h2 : '%' ∉ t.data) (h3 : '+' ∉ t.data)
    (h4 : '#' ∉ t.data) (h5 : '?' ∉ t.data) :
    (getFirstGoogleResultLink st ⟨false, some (redirectWrapMark ++ t) :: rest, g⟩ q).1 = t := by
  have hpre : jsStartsWith (redirectWrapMark ++ t) redirectWrapMark = true := by
    unfold jsStartsWith
    rw [strDataAppend]
    exact isPrefixOfAppendSelf _ _
  unfold getFirstGoogleResultLink
  rw [if_neg hq]
  show firstResultScan (some (redirectWrapMark ++ t) :: rest) g = t
  rw [firstResultScan]
  rw [if_neg (by
    intro hcon
    rw [hpre] at hcon
    exact Bool.noConfusion hcon.2.2)]
  rw [if_pos hpre, getQueryParamQ_wrap t h1 h2 h3 h4 h5]
  rfl

/-- Witness for C6 (amended) at the spec's example target. -/
theorem c6_redirect_unwrap_amended_witness :
    (getFirstGoogleResultLink initSearchState
        ⟨false, [some (redirectWrapMark ++ "https://target.example/job/1")], none⟩
        "Software Engineer Acme").1 = "https://target.example/job/1" :=
  c6_redirect_unwrap_amended initSearchState "Software Engineer Acme"
    "https://target.example/job/1" [] none (by decide) (by decide) (by decide)
    (by decide) (by decide) (by decide)

/-- C6 counterexample: the wrapper URL of the claim's example lives on
`example.com`, not on the search engine's host, so the code returns the
wrapper itself instead of the decoded target. -/
theorem c6_counterexample :
    (getFirstGoogleResultLink initSearchState ⟨false, [some c6xUrl], none⟩
        "Software Engineer Acme").1 = c6xUrl ∧
    c6xUrl ≠ "https://target.example/job/1" := by
  decide

/-! ## C7: enrichment queries of the summary stage -/

/-- Ensuring the secondary page does not navigate. -/
theorem ensureSearchPage_nav (st : SearchState) :
    (ensureSearchPage st).navQueries = st.navQueries := by
  unfold ensureSearchPage
  split <;> rfl

/-- The queries one lookup adds to the navigation log. -/
theorem getFirst_nav (st : SearchState) (env : LookupEnv) (q : String) :
    (getFirstGoogleResultLink st env q).2.navQueries =
      if jsTrim q = "" then st.navQueries else st.navQueries ++ [jsTrim q] := by
  unfold getFirstGoogleResultLink
  by_cases h : jsTrim q = ""
  · rw [if_pos h, if_pos h]
  · rw [if_neg h, if_neg h]
    dsimp only
    split <;> simp [ensureSearchPage_nav]

/-- One lookup preserves the pages invariant. -/
theorem getFirst_pages (st : SearchState) (env : LookupEnv) (q : String)
    (h : PagesInv st) : PagesInv (getFirstGoogleResultLink st env q).2 := by
  unfold getFirstGoogleResultLink
  by_cases hq : jsTrim q = ""
  · rw [if_pos hq]; exact h
  · rw [if_neg hq]
    dsimp only
    have hens : PagesInv (ensureSearchPage st) := by
      unfold ensureSearchPage PagesInv at *
      split
      · exact h
      · next hcr =>
        have h0 : st.pagesOpened = 0 := h.2 (by simpa using hcr)
        constructor
        · show st.pagesOpened + 1 ≤ 1
          omega
        · intro hx
          exact absurd hx (by simp)
    split <;> exact ⟨hens.1, hens.2⟩

/-- The navigation log of the summary loop is the filter-map of the
per-record queries. -/
theorem summaryGo_nav (envs : Nat → LookupEnv) :
    ∀ (l : List JobRecord) (st : SearchState) (i : Nat),
      (summaryGo envs st i l).2.navQueries = st.navQueries ++ l.filterMap summaryQueryOf := by
  intro l
  induction l with
  | nil => intro st i; simp [summaryGo]
  | cons r rest ih =>
    intro st i
    rw [summaryGo]
    dsimp only
    by_cases hp : ([r.title, r.company].filter (fun s => !(s == ""))).isEmpty
    · rw [if_pos hp]
      dsimp only
      rw [ih]
      have hnone : summaryQueryOf r = none := by
        unfold summaryQueryOf
        rw [if_pos hp]
      rw [List.filterMap_cons, hnone]
    · rw [if_neg hp]
      dsimp only
      rw [ih, getFirst_nav]
      by_cases hq : jsTrim (joinSpace ([r.title, r.company].filter (fun s => !(s == "")))) = ""
      · rw [if_pos hq]
        have hnone : summaryQueryOf r = none := by
          unfold summaryQueryOf
          rw [if_neg hp]
          dsimp only
          rw [if_pos hq]
        rw [List.filterMap_cons, hnone]
      · rw [if_neg hq]
        have hsome : summaryQueryOf r =
            some (jsTrim (joinSpace ([r.title, r.company].filter (fun s => !(s == ""))))) := by
          unfold summaryQueryOf
          rw [if_neg hp]
          dsimp only
          rw [if_neg hq]
        rw [List.filterMap_cons, hsome, List.append_assoc]
        rfl

/-- The summary loop preserves the pages invariant. -/
theorem summaryGo_pages (envs : Nat → LookupEnv) :
    ∀ (l : List JobRecord) (st : SearchState) (i : Nat),
      PagesInv st → PagesInv (summaryGo envs st i l).2 := by
  intro l
  induction l with
  | nil => intro st i h; exact h
  | cons r rest ih =>
    intro st i h
    rw [summaryGo]
    dsimp only
    split
    · exact ih st (i + 1) h
    · exact ih _ (i + 1) (getFirst_pages st (envs i) _ h)

/-- The summary pairs list the records of the slice, in order. -/
theorem summaryGo_fst (envs : Nat → LookupEnv) :
    ∀ (l : List JobRecord) (st : SearchState) (i : Nat),
      (summaryGo envs st i l).1.map Prod.fst = l := by
  intro l
  induction l with
  | nil => intro st i; rfl
  | cons r rest ih =>
    intro st i
    rw [summaryGo]
    dsimp only
    split <;> simp [ih]

/-- A character of the list survives `dropWhile` when the predicate
fails on it. -/
theorem mem_dropWhile_of_not (p : Char → Bool) (x : Char) (hx : p x = false) :
    ∀ (l : List Char), x ∈ l → x ∈ l.dropWhile p := by
  intro l
  induction l with
  | nil => intro hm; exact absurd hm (List.not_mem_nil x)
  | cons a t ih =>
    intro hm
    by_cases hpa : p a = true
    · rw [List.dropWhile_cons_of_pos hpa]
      rcases List.mem_cons.mp hm with he | hm
      · subst he
        rw [hx] at hpa
        exact Bool.noConfusion hpa
      · exact ih hm
    · rw [List.dropWhile_cons_of_neg hpa]
      exact hm

/-- A list containing a non-whitespace character does not trim to nil. -/
theorem trimChars_ne_nil (cs : List Char) (x : Char) (hx : isJsWs x = false)
    (hmem : x ∈ cs) : trimChars cs ≠ [] := by
  unfold trimChars
  intro h
  rw [List.reverse_eq_nil_iff] at h
  have h1 : x ∈ cs.dropWhile isJsWs := mem_dropWhile_of_not isJsWs x hx cs hmem
  have h2 : x ∈ (cs.dropWhile isJsWs).reverse := List.mem_reverse.mpr h1
  have h3 : x ∈ ((cs.dropWhile isJsWs).reverse).dropWhile isJsWs :=
    mem_dropWhile_of_not isJsWs x hx _ h2
  rw [h] at h3
  exact absurd h3 (List.not_mem_nil x)

/-- A string containing a non-whitespace character does not trim to "". -/
theorem jsTrim_ne_empty (s : String) (x : Char) (hx : isJsWs x = false)
    (hmem : x ∈ s.data) : jsTrim s ≠ "" := by
  unfold jsTrim
  intro h
  exact trimChars_ne_nil s.data x hx hmem (congrArg String.data h)

/-- A non-empty trimmed string contains a non-whitespace character. -/
theorem exists_nonws_of_trimmed (s : String) (hs : jsTrim s = s) (hne : s ≠ "") :
    ∃ x, x ∈ s.data ∧ isJsWs x = false := by
  by_contra hall
  push_neg at hall
  have hdrop : s.data.dropWhile isJsWs = [] := by
    rw [List.dropWhile_eq_nil_iff]
    intro x hxm
    cases hws : isJsWs x
    · exact absurd hws (hall x hxm)
    · rfl
  have htrim : trimChars s.data = [] := by
    unfold trimChars
    rw [hdrop]
    rfl
  have hempty : jsTrim s = "" := by
    unfold jsTrim
    rw [htrim]
  rw [hs] at hempty
  exact hne hempty

/-- A record with trimmed fields and a non-empty title or company always
yields a summary query. -/
theorem summaryQueryOf_some (r : JobRecord) (htr : jsTrim r.title = r.title)
    (htc : jsTrim r.company = r.company) (hne : r.title ≠ "" ∨ r.company ≠ "") :
    ∃ q, summaryQueryOf r = some q := by
  unfold summaryQueryOf
  by_cases ht : r.title = ""
  · have hc : r.company ≠ "" := by
      rcases hne with h | h
      · exact absurd ht h
      · exact h
    have hft : (r.title == "") = true := beq_iff_eq.mpr ht
    have hfc : (r.company == "") = false := beq_eq_false_iff_ne.mpr hc
    have hparts : [r.title, r.company].filter (fun s => !(s == "")) = [r.company] := by
      simp [List.filter, hft, hfc]
    rw [hparts]
    rw [if_neg (by simp)]
    dsimp only
    rw [show joinSpace [r.company] = r.company from rfl, htc]
    rw [if_neg hc]
    exact ⟨r.company, rfl⟩
  · by_cases hc : r.company = ""
    · have hft : (r.title == "") = false := beq_eq_false_iff_ne.mpr ht
      have hfc : (r.company == "") = true := beq_iff_eq.mpr hc
      have hparts : [r.title, r.company].filter (fun s => !(s == "")) = [r.title] := by
        simp [List.filter, hft, hfc]
      rw [hparts]
      rw [if_neg (by simp)]
      dsimp only
      rw [show joinSpace [r.title] = r.title from rfl, htr]
      rw [if_neg ht]
      exact ⟨r.title, rfl⟩
    · have hft : (r.title == "") = false := beq_eq_false_iff_ne.mpr ht
      have hfc : (r.company == "") = false := beq_eq_false_iff_ne.mpr hc
      have hparts : [r.title, r.company].filter (fun s => !(s == "")) =
          [r.title, r.company] := by
        simp [List.filter, hft, hfc]
      rw [hparts]
      rw [if_neg (by simp)]
      dsimp only
      obtain ⟨x, hxm, hxw⟩ := exists_nonws_of_trimmed r.title htr ht
      have hqne : jsTrim (joinSpace [r.title, r.company]) ≠ "" := by
        apply jsTrim_ne_empty _ x hxw
        show x ∈ (r.title ++ " " ++ r.company).data
        rw [strDataAppend, strDataAppend]
        exact List.mem_append_left _ (List.mem_append_left _ hxm)
      rw [if_neg hqne]
      exact ⟨_, rfl⟩

/-- C7 (amended): the summary stage enriches only the last five records
(the `slice(-5)` window): for each record of that window with a
non-empty (trimmed) title or company, exactly the query
`[title, company].filter(Boolean).join(' ')` is navigated to on the
secondary view, and at most one secondary view is ever created across
all lookups. -/
theorem c7_enrichment_amended (results : List JobRecord) (envs : Nat → LookupEnv) :
    (runSummary initSearchState envs results).2.navQueries = summaryNavQueries results ∧
    (runSummary initSearchState envs results).2.pagesOpened ≤ 1 ∧
    (∀ r ∈ results.drop (results.length - 5),
      jsTrim r.title = r.title → jsTrim r.company = r.company →
      (r.title ≠ "" ∨ r.company ≠ "") →
      ∃ qr, summaryQueryOf r = some qr ∧
        qr ∈ (runSummary initSearchState envs results).2.navQueries) := by
  have hnav : (runSummary initSearchState envs results).2.navQueries =
      summaryNavQueries results := by
    unfold runSummary summaryNavQueries
    rw [summaryGo_nav]
    rfl
  refine ⟨hnav, ?_, ?_⟩
  · exact (summaryGo_pages envs _ initSearchState 0 ⟨by decide, fun _ => rfl⟩).1
  · intro r hr htr htc hne
    obtain ⟨qr, hq⟩ := summaryQueryOf_some r htr htc hne
    refine ⟨qr, hq, ?_⟩
    rw [hnav]
    exact List.mem_filterMap.mpr ⟨r, hr, hq⟩

/-- Witness for C7 (amended) at a one-record list. -/
theorem c7_enrichment_amended_witness :
    "Engineer Acme" ∈ (runSummary initSearchState noLookup [c7wRec]).2.navQueries := by
  obtain ⟨qr, hq, hmem⟩ :=
    (c7_enrichment_amended [c7wRec] noLookup).2.2 c7wRec (by decide) (by decide)
      (by decide) (Or.inl (by decide))
  have hqr : qr = "Engineer Acme" := by
    have : summaryQueryOf c7wRec = some "Engineer Acme" := by decide
    rw [this] at hq
    exact (Option.some.inj hq).symm
  rw [hqr] at hmem
  exact hmem

/-- C7 counterexample: with six records in the output, the first record
has a non-empty title yet no enrichment query is issued for it — the
loop only covers `results.slice(-5)`, refuting "for each final JobRecord
in the run's output". -/
theorem c7_counterexample :
    (c7xRecords.map (fun r => r.title)).head? = some "T0" ∧
    ("T0" : String) ≠ "" ∧
    (runSummary initSearchState noLookup c7xRecords).2.navQueries =
      ["T1", "T2", "T3", "T4", "T5"] ∧
    ¬ "T0" ∈ (runSummary initSearchState noLookup c7xRecords).2.navQueries := by
  decide

/-! ## C8 and C9: run mode and strategy chain -/

/-- A successful run's report comes from `finishRun` on the winning
strategy's records: the class-based ones when non-empty, else the
fallback ones with the fallback stage logged. -/
theorem runPipeline_ok_cases (env : RunEnv) (rep : Report)
    (hok : runPipeline env = Except.ok rep) :
    (classBasedResults env.cards ≠ [] ∧
      rep = finishRun env (classBasedResults env.cards) []) ∨
    (classBasedResults env.cards = [] ∧
      rep = finishRun env (fallbackExtract env.fbElems env.headings)
        [StageTag.fallbackEval]) := by
  unfold runPipeline evalStep at hok
  cases htab : env.tabsThrow <;> rw [htab] at hok <;> simp at hok
  cases htit : env.titlesThrow <;> rw [htit] at hok <;> simp at hok
  cases hcl : env.classThrow <;> rw [hcl] at hok <;> simp at hok
  by_cases hemp : classBasedResults env.cards = []
  · rw [if_pos hemp] at hok
    cases hfb : env.fbThrow <;> rw [hfb] at hok <;> simp at hok
    exact Or.inr ⟨hemp, hok.symm⟩
  · rw [if_neg hemp] at hok
    simp at hok
    exact Or.inl ⟨hemp, hok.symm⟩

/-- The report's record collection is the chosen strategy's output. -/
theorem finishRun_records (env : RunEnv) (results : List JobRecord)
    (fbLog : List StageTag) : (finishRun env results fbLog).records = results := by
  unfold finishRun
  dsimp only
  split <;> rfl

/-- The summary pairs of a finished run list the last-five slice. -/
theorem finishRun_summary_fst (env : RunEnv) (results : List JobRecord)
    (fbLog : List StageTag) :
    (finishRun env results fbLog).summary.map Prod.fst =
      results.drop (results.length - 5) := by
  unfold finishRun
  dsimp only
  split <;>
    exact summaryGo_fst env.lookupEnvs (results.drop (results.length - 5)) initSearchState 0

/-- In summary-only mode the report has no detail section. -/
theorem finishRun_details_none (env : RunEnv) (results : List JobRecord)
    (fbLog : List StageTag) (h : summaryOnlyOutput env.summaryEnv = true) :
    (finishRun env results fbLog).details = none := by
  unfold finishRun
  dsimp only
  rw [if_pos h]

/-- In full-detail mode the report carries a detail section. -/
theorem finishRun_details_some (env : RunEnv) (results : List JobRecord)
    (fbLog : List StageTag) (h : summaryOnlyOutput env.summaryEnv = false) :
    (finishRun env results fbLog).details.isSome = true := by
  unfold finishRun
  dsimp only
  rw [if_neg (by simp [h])]
  rfl

/-- The drill-down stage is logged exactly in full-detail mode. -/
theorem finishRun_detailLog (env : RunEnv) (results : List JobRecord)
    (fbLog : List StageTag) (hfb : ¬ StageTag.detailLoop ∈ fbLog) :
    (StageTag.detailLoop ∈ (finishRun env results fbLog).evalLog ↔
      summaryOnlyOutput env.summaryEnv = false) := by
  unfold finishRun
  dsimp only
  split
  · next h => simp [List.mem_append, hfb, h]
  · next h => simp [List.mem_append, hfb, h]

/-- The fallback stage is logged exactly when it was passed in. -/
theorem finishRun_fallbackLog (env : RunEnv) (results : List JobRecord)
    (fbLog : List StageTag) :
    (StageTag.fallbackEval ∈ (finishRun env results fbLog).evalLog ↔
      StageTag.fallbackEval ∈ fbLog) := by
  unfold finishRun
  dsimp only
  split <;> simp [List.mem_append]

/-- C8: the summary-only flag, read once at start, decides the run shape
of every successful run: when true the report carries the summary of the
last five records (in discovery order) and no detail section — the
drill-down stage never runs; when false the detail drill-down runs and
its results are attached. -/
theorem c8_summary_only_mode (env : RunEnv) (rep : Report)
    (hok : runPipeline env = Except.ok rep) :
    (summaryOnlyOutput env.summaryEnv = true →
      rep.details = none ∧ ¬ StageTag.detailLoop ∈ rep.evalLog) ∧
    (summaryOnlyOutput env.summaryEnv = false →
      rep.details.isSome = true ∧ StageTag.detailLoop ∈ rep.evalLog) ∧
    rep.summary.map Prod.fst = rep.records.drop (rep.records.length - 5) := by
  rcases runPipeline_ok_cases env rep hok with ⟨-, hrep⟩ | ⟨-, hrep⟩ <;> subst hrep <;>
    exact ⟨fun hmode => ⟨finishRun_details_none env _ _ hmode,
        fun hmem => absurd ((finishRun_detailLog env _ _ (by simp)).mp hmem)
          (by simp [hmode])⟩,
      fun hmode => ⟨finishRun_details_some env _ _ hmode,
        (finishRun_detailLog env _ _ (by simp)).mpr hmode⟩,
      by rw [finishRun_records]; exact finishRun_summary_fst env _ _⟩

/-- Witness for C8: a clean summary-only run carries no detail section. -/
theorem c8_summary_only_mode_witness :
    (reportOf (runPipeline cleanRunEnv) emptyReport).details = none :=
  ((c8_summary_only_mode cleanRunEnv
    (reportOf (runPipeline cleanRunEnv) emptyReport) rfl).1 rfl).1

/-- C9: the two listing strategies run in fixed order and the chain
short-circuits on the first non-empty result — when the class-based
strategy yields records the fallback evaluation never runs and the
class-based output is the run's record collection; when it yields none
the fallback evaluation runs and its output is used verbatim. -/
theorem c9_strategy_chain (env : RunEnv) (rep : Report)
    (hok : runPipeline env = Except.ok rep) :
    (classBasedResults env.cards ≠ [] →
      rep.records = classBasedResults env.cards ∧
        ¬ StageTag.fallbackEval ∈ rep.evalLog) ∧
    (classBasedResults env.cards = [] →
      rep.records = fallbackExtract env.fbElems env.headings ∧
        StageTag.fallbackEval ∈ rep.evalLog) := by
  rcases runPipeline_ok_cases env rep hok with ⟨hne, hrep⟩ | ⟨he, hrep⟩ <;> subst hrep
  · refine ⟨fun _ => ⟨finishRun_records env _ _, ?_⟩, fun he => absurd he hne⟩
    intro hmem
    exact absurd ((finishRun_fallbackLog env _ _).mp hmem) (by simp)
  · refine ⟨fun hne => absurd he hne, fun _ => ⟨finishRun_records env _ _, ?_⟩⟩
    exact (finishRun_fallbackLog env _ _).mpr (by simp)

/-- Witness for C9: with one class-based record the run's records are
the class-based output. -/
theorem c9_strategy_chain_witness :
    (reportOf (runPipeline c9wEnv) emptyReport).records =
      classBasedResults c9wEnv.cards :=
  ((c9_strategy_chain c9wEnv
    (reportOf (runPipeline c9wEnv) emptyReport) rfl).1 (by decide)).1
